import Mathlib

/-!
Verification of InstantRTOS components against their natural-language
specification.  Shallow embedding: machine integers (`unsigned`,
`unsigned long`) are `Nat` taken modulo `2 ^ 32`; the handler slot of a
`Delegate` is a `Nat` identifier; operations return the new state together
with the list of handler invocations they performed.
-/

namespace InstantRTOS

/-- Width of `unsigned long` / `unsigned` assumed 32 bits. -/
def USIZE : Nat := 2 ^ 32

/-- `ActionNode::DeltaMax = ~Ticks(0) / 2` (InstantScheduler.h line 214). -/
def DeltaMax : Nat := (USIZE - 1) / 2

/-- Wrap-around unsigned subtraction `a - b` on 32-bit values. -/
def tsub (a b : Nat) : Nat := (a + (USIZE - b % USIZE)) % USIZE

/-- Wrap-around unsigned addition `a + b` on 32-bit values. -/
def tadd (a b : Nat) : Nat := (a + b) % USIZE

/-- `ActionNode::TicksIsLess(op1, op2) = (op1 - op2) > DeltaMax`
(InstantScheduler.h lines 542-547). -/
def TicksIsLess (op1 op2 : Nat) : Bool := tsub op1 op2 > DeltaMax

/-! ## Thenable

`Thenable<T>` privately derives from `Delegate<void(const T&)>`; the
delegate state is two words (InstantDelegate.h lines 399-433):
`correspondingCaller` (the trampoline pointer, where the special value
`markerForThenableWithoutSubscription` marks the unsubscribed state) and a
union word that holds `untrackedEventsCount` while unsubscribed and the
receiver word of the installed handler otherwise.  We model
`correspondingCaller` as `Option Nat` (`none` = the marker, `some h` = the
trampoline of handler `h`) and the union word as a `Nat` that equals `h`
right after handler `h` is installed. -/

/-- State of `Thenable<T>` / `ThenableToResolve<T>` (InstantThenable.h):
delegate words plus the `LifetimeManager<T> storedResult` slot. -/
structure ThenableState (T : Type) where
  caller : Option Nat
  word : Nat
  storedResult : Option T
deriving Repr

/-- `Thenable<T>::Thenable()` (InstantThenable.h lines 386-389): caller set
to the marker, untracked count zeroed, no stored result. -/
def thenableInit (T : Type) : ThenableState T := ⟨none, 0, none⟩

/-- `ThenableToResolve<T>::operator()(const T&)` (InstantThenable.h lines
494-532, branch without multithreading protection): with a subscribed
handler, copy it, reset the delegate to the marker with count 0 and invoke
the copy; otherwise increment the untracked count and `Force` the value
into `storedResult`. -/
def thenableResolve {T : Type} (s : ThenableState T) (v : T) :
    ThenableState T × List (Nat × T) :=
  match s.caller with
  | some h => (⟨none, 0, s.storedResult⟩, [(h, v)])
  | none => (⟨none, (s.word + 1) % USIZE, some v⟩, [])

/-- `Thenable<T>::Then(handler)` (InstantThenable.h lines 396-454, branch
without multithreading protection): if no stored result, install the
handler (overwriting both delegate words); else take the stored value,
`DestroyOrPanic` the storage, decrement the untracked count and invoke the
new handler with the taken value. -/
def thenableThen {T : Type} (s : ThenableState T) (h : Nat) :
    ThenableState T × List (Nat × T) :=
  match s.storedResult with
  | none => (⟨some h, h, none⟩, [])
  | some v => (⟨s.caller, (s.word + (USIZE - 1)) % USIZE, none⟩, [(h, v)])

/-- `Thenable<T>::UntrackedEventsCount()` (InstantThenable.h lines
470-476): 0 when a real handler is installed, else the count word. -/
def thenableUntrackedEventsCount {T : Type} (s : ThenableState T) : Nat :=
  match s.caller with
  | some _ => 0
  | none => s.word

/-- A producer/consumer step on a `Thenable<T>`. -/
inductive ThenOp (T : Type) where
  | resolve (v : T)
  | subscribe (h : Nat)

/-- Run a sequence of `Thenable<T>` operations, collecting every handler
invocation in order. -/
def thenableRun {T : Type} (s : ThenableState T) :
    List (ThenOp T) → ThenableState T × List (Nat × T)
  | [] => (s, [])
  | op :: rest =>
    let step := match op with
      | .resolve v => thenableResolve s v
      | .subscribe h => thenableThen s h
    let tail := thenableRun step.1 rest
    (tail.1, step.2 ++ tail.2)

/-! ### Thenable<void>

The `void` specialisation keeps no stored result; the union word is the
untracked call counter while unsubscribed. -/

/-- State of `Thenable<void>` (InstantThenable.h lines 260-333): just the
two delegate words. -/
structure ThenableVoidState where
  caller : Option Nat
  word : Nat
deriving Repr, DecidableEq

/-- `Thenable<void>::Thenable()` (InstantThenable.h lines 535-537). -/
def thenableVoidInit : ThenableVoidState := ⟨none, 0⟩

/-- `ThenableToResolve<void>::operator()()` (InstantThenable.h lines
618-654, branch without multithreading protection). -/
def thenableVoidResolve (s : ThenableVoidState) :
    ThenableVoidState × List Nat :=
  match s.caller with
  | some h => (⟨none, 0⟩, [h])
  | none => (⟨none, (s.word + 1) % USIZE⟩, [])

/-- `Thenable<void>::Then(handler)` (InstantThenable.h lines 543-590,
branch without multithreading protection).  The source installs the
handler when `!(correspondingCaller != marker && untrackedEventsCount)`;
otherwise it decrements the count word and invokes the argument. -/
def thenableVoidThen (s : ThenableVoidState) (h : Nat) :
    ThenableVoidState × List Nat :=
  if ¬(s.caller ≠ none ∧ s.word ≠ 0) then
    (⟨some h, h⟩, [])
  else
    (⟨s.caller, (s.word + (USIZE - 1)) % USIZE⟩, [h])

/-- `Thenable<void>::UntrackedEventsCount()` (InstantThenable.h lines
603-608). -/
def thenableVoidUntrackedEventsCount (s : ThenableVoidState) : Nat :=
  match s.caller with
  | some _ => 0
  | none => s.word

/-- A producer/consumer step on a `Thenable<void>`. -/
inductive ThenVoidOp where
  | resolve
  | subscribe (h : Nat)

/-- Run a sequence of `Thenable<void>` operations, collecting every
handler invocation in order. -/
def thenableVoidRun (s : ThenableVoidState) :
    List ThenVoidOp → ThenableVoidState × List Nat
  | [] => (s, [])
  | op :: rest =>
    let step := match op with
      | .resolve => thenableVoidResolve s
      | .subscribe h => thenableVoidThen s h
    let tail := thenableVoidRun step.1 rest
    (tail.1, step.2 ++ tail.2)

/-! ## Scheduler and ActionNode (InstantScheduler.h)

An `ActionNode` scheduled with a `Scheduler` carries
`scheduleData.absoluteScheduleTime` and `scheduleData.periodTicksAgain`
(lines 342-353).  The queue is the intrusive list `scheduledActions`,
modelled as a `List` of entries ordered head first.  The handlers fired
by the claims below leave their node detached and do not touch the
scheduler, which is the `IsChainElementSingle()` branch of `ExecuteOne`;
each fired node is therefore reported as an `(id, absoluteScheduleTime)`
event instead of running user code. -/

/-- A scheduled `ActionNode` as seen by its `Scheduler`. -/
structure ActionEntry where
  id : Nat
  time : Nat
  period : Nat
deriving Repr, DecidableEq

/-- `Scheduler::MeasurementMonitor` state (InstantScheduler.h lines
461-480), with `InstantScheduler_StatisticsAverageCount = 1000`. -/
structure MeasurementMonitor where
  maxKnownValue : Nat
  numMeasurements : Nat
  accumulatedSoFar : Nat
deriving Repr, DecidableEq

/-- Fresh `MeasurementMonitor` (all counters zero). -/
def monitorInit : MeasurementMonitor := ⟨0, 0, 0⟩

/-- `MeasurementMonitor::Average()` (InstantScheduler.h lines 889-894). -/
def monitorAverage (m : MeasurementMonitor) : Nat :=
  if m.numMeasurements ≠ 0 then m.accumulatedSoFar / m.numMeasurements else 0

/-- `MeasurementMonitor::OnMeasurement` (InstantScheduler.h lines
870-886). -/
def monitorOnMeasurement (m : MeasurementMonitor) (cur : Nat) : MeasurementMonitor :=
  let mx := if cur > m.maxKnownValue then cur else m.maxKnownValue
  if m.numMeasurements ≥ 1000 then
    ⟨mx, m.numMeasurements, (tsub m.accumulatedSoFar (monitorAverage m) + cur) % USIZE⟩
  else
    ⟨mx, (m.numMeasurements + 1) % USIZE, (m.accumulatedSoFar + cur) % USIZE⟩

/-- `Scheduler` state (InstantScheduler.h lines 448-487). -/
structure SchedulerState where
  knownAbsoluteTicks : Nat
  queue : List ActionEntry
  previousExecuteAllKnownAbsoluteTicks : Nat
  statisticsDelayBetweenExecuteOne : MeasurementMonitor
  statisticsDelayBetweenExecuteAll : MeasurementMonitor
deriving Repr, DecidableEq

/-- `Scheduler()` default construction. -/
def schedulerInit : SchedulerState := ⟨0, [], 0, monitorInit, monitorInit⟩

/-- `Scheduler::Start(currentTicks)` (InstantScheduler.h lines 726-732). -/
def SchedulerStart (s : SchedulerState) (currentTicks : Nat) : SchedulerState :=
  { s with
    knownAbsoluteTicks := currentTicks % USIZE
    previousExecuteAllKnownAbsoluteTicks := currentTicks % USIZE }

/-- `ActionNode::scheduleAfterFindPlace` (InstantScheduler.h lines
701-720): walk from the head and insert before the first entry whose time
is strictly greater under cyclic comparison, hence after every entry with
the same time. -/
def insertAfterFindPlace (e : ActionEntry) : List ActionEntry → List ActionEntry
  | [] => [e]
  | x :: xs =>
    if TicksIsLess e.time x.time then e :: x :: xs
    else x :: insertAfterFindPlace e xs

/-- `ActionNode::ScheduleAfter` (InstantScheduler.h lines 559-576 with
`prepareForNewSchedule` lines 687-699): the entry time is
`knownAbsoluteTicks + ticksToWaitFirstTime`; `InsertPrevChainElement`
first detaches the node from any chain it is on, which the list model
renders by filtering out any entry with the same node identity. -/
def ScheduleAfter (s : SchedulerState) (id first period : Nat) : SchedulerState :=
  let e : ActionEntry := ⟨id, tadd s.knownAbsoluteTicks first, period % USIZE⟩
  { s with queue := insertAfterFindPlace e (s.queue.filter (fun x => x.id != id)) }

/-- `Scheduler::ExecuteOne(currentTicks)` (InstantScheduler.h lines
734-817): record the jitter sample, set `knownAbsoluteTicks`, pop the head
if due; after the handler runs (leaving the node single), re-insert with
time `knownAbsoluteTicks + periodTicksAgain` when the period is nonzero.
Returns the new state and the fired `(id, absoluteScheduleTime)`. -/
def ExecuteOne (s : SchedulerState) (currentTicks : Nat) :
    SchedulerState × Option (Nat × Nat) :=
  let now := currentTicks % USIZE
  let s1 : SchedulerState :=
    { s with
      statisticsDelayBetweenExecuteOne :=
        monitorOnMeasurement s.statisticsDelayBetweenExecuteOne
          (tsub now s.knownAbsoluteTicks)
      knownAbsoluteTicks := now }
  match s1.queue with
  | [] => (s1, none)
  | a :: rest =>
    if TicksIsLess now a.time then (s1, none)
    else
      let s2 :=
        if a.period ≠ 0 then
          { s1 with queue := insertAfterFindPlace { a with time := tadd now a.period } rest }
        else
          { s1 with queue := rest }
      (s2, some (a.id, a.time))

/-- Result of an `ExecuteAll` style loop: final state, fired events in
order, and whether the loop stopped because `ExecuteOne` found nothing
due (`completed = true`) rather than because the fuel ran out. -/
structure ExecResult where
  state : SchedulerState
  fired : List (Nat × Nat)
  completed : Bool
deriving Repr, DecidableEq

/-- The loop body of `Scheduler::ExecuteAll` (InstantScheduler.h lines
829-833): repeat `ExecuteOne` until it executes nothing.  Structured with
fuel; `completed = true` certifies the run is the full C++ loop. -/
def executeAllGo : Nat → SchedulerState → Nat → ExecResult
  | 0, s, _ => ⟨s, [], false⟩
  | fuel + 1, s, now =>
    match ExecuteOne s now with
    | (s1, none) => ⟨s1, [], true⟩
    | (s1, some f) =>
      let r := executeAllGo fuel s1 now
      ⟨r.state, f :: r.fired, r.completed⟩

/-- `Scheduler::ExecuteAll(currentTicks)` (InstantScheduler.h lines
821-834): statistics update followed by the `ExecuteOne` loop. -/
def ExecuteAll (fuel : Nat) (s : SchedulerState) (currentTicks : Nat) : ExecResult :=
  let s1 : SchedulerState :=
    { s with
      statisticsDelayBetweenExecuteAll :=
        monitorOnMeasurement s.statisticsDelayBetweenExecuteAll
          (tsub (currentTicks % USIZE) s.previousExecuteAllKnownAbsoluteTicks)
      previousExecuteAllKnownAbsoluteTicks := currentTicks % USIZE }
  executeAllGo fuel s1 currentTicks

/-- Drive `ExecuteAll` at a sequence of tick values, concatenating the
fired events. -/
def executeAllSeq (fuel : Nat) (s : SchedulerState) : List Nat → ExecResult
  | [] => ⟨s, [], true⟩
  | t :: ts =>
    let r := ExecuteAll fuel s t
    let rest := executeAllSeq fuel r.state ts
    ⟨rest.state, r.fired ++ rest.fired, r.completed && rest.completed⟩

/-- The entry that `ScheduleAfter(sched, delta, 0)` builds when the
scheduler's known tick is `n` (used to state claim C3). -/
def mkEntry (n : Nat) (p : Nat × Nat) : ActionEntry := ⟨p.1, tadd n p.2, 0⟩

/-- Perform a sequence of `ScheduleAfter(sched, delta, 0)` calls, one per
`(id, delta)` pair in order. -/
def foldSched (s : SchedulerState) (l : List (Nat × Nat)) : SchedulerState :=
  l.foldl (fun s p => ScheduleAfter s p.1 p.2 0) s

/-! ## Cooperative task recursion guard (InstantTask.h)

`CppTask_HandleRecursionBase` keeps a four-state enum sampled under the
critical section; the functions below embed its three operations
(InstantTask.h lines 440-560).  The yield protocol
(`TASK_INTERNAL_YIELD_FROM`, lines 680-699, with
`CppTask_Yield_IssueThenCallback_Suspends`, lines 574-592) is embedded as
`taskYieldPublish`, parameterised by whether the then-handler performs a
nested resume of the same task while the value is being published. -/

/-- `CppTask_AdditionalState` (InstantTask.h lines 553-559). -/
inductive CppTask_AdditionalState where
  | ReadyToResume
  | Busy
  | ProtectFromRecursion
  | ResumedByImmediateCallback
deriving Repr, DecidableEq

/-- `CppTask_HandleRecursion_CanExecuteHere` (InstantTask.h lines
447-481): returns the new state and whether the caller may run the task
body; `none` models the panic on resuming a busy task. -/
def CppTask_HandleRecursion_CanExecuteHere :
    CppTask_AdditionalState → Option (CppTask_AdditionalState × Bool)
  | .ReadyToResume => some (.Busy, true)
  | .ProtectFromRecursion => some (.ResumedByImmediateCallback, false)
  | .Busy => none
  | .ResumedByImmediateCallback => none

/-- `CppTask_EnterOperation_ProtectFromRecursion` (InstantTask.h lines
507-512). -/
def CppTask_EnterOperation_ProtectFromRecursion
    (_ : CppTask_AdditionalState) : CppTask_AdditionalState :=
  .ProtectFromRecursion

/-- `CppTask_LeaveOperation_DoesTaskStaySuspended` (InstantTask.h lines
520-549): returns the new state and whether the task stays suspended. -/
def CppTask_LeaveOperation_DoesTaskStaySuspended :
    CppTask_AdditionalState → CppTask_AdditionalState × Bool
  | .ResumedByImmediateCallback => (.Busy, false)
  | _ => (.ReadyToResume, true)

/-- One yield of a running task (`CppTask_Yield_IssueThenCallback_Suspends`):
enter the protected region, resolve the task's Thenable (during which the
subscribed handler may issue one nested resume of this same task through
`Internal_ResumeTask`, which consults
`CppTask_HandleRecursion_CanExecuteHere`), then leave the region.  Returns
`(final state, middle state seen after the handler ran, outer frame
continues the body, nested call executed the body)`; `none` is the panic
path. -/
def taskYieldPublish (handlerNestedResume : Bool)
    (s : CppTask_AdditionalState) :
    Option (CppTask_AdditionalState × CppTask_AdditionalState × Bool × Bool) :=
  let s1 := CppTask_EnterOperation_ProtectFromRecursion s
  let afterHandler : Option (CppTask_AdditionalState × Bool) :=
    if handlerNestedResume then
      CppTask_HandleRecursion_CanExecuteHere s1
    else
      some (s1, false)
  match afterHandler with
  | none => none
  | some (s2, nestedRanBody) =>
    let r := CppTask_LeaveOperation_DoesTaskStaySuspended s2
    some (r.1, s2, !r.2, nestedRanBody)

/-! ## Trampoline pool (InstantCallback.h)

`LambdaListNodeGenerator` produces the static chain of `reservedCount`
nodes; node `k` is `LambdaListNodeGenerator<..., k>::node` and the chain
head is node `reservedCount`, linked down to node 1.  The initialiser of
node 1 (lines 687-696) stores the trampoline
`ObtainSimpleFunctionFor<..., &Generator<...,1>::node>::apply`, and the
initialiser of every node with `reservedCount > 1` (lines 698-707) stores
`ObtainSimpleFunctionFor<..., &Generator<...,1>::node>::apply` as well:
the template argument at line 704 is the node of specialisation `1`, not
of `reservedCount`.  A trampoline function is identified below by the
index of the node whose storage its body reads. -/

/-- The node index whose storage the generated trampoline of node `k`
dispatches into (InstantCallback.h lines 689-696 and 698-707): node 1 for
every `k`. -/
def nodeTrampolineTarget (_k : Nat) : Nat := 1

/-- The per-lambda-type static pool: the free list threaded through the
nodes (head = `Allocator::first`) and the closures currently stored in
allocated nodes. -/
structure CallbackPool where
  free : List Nat
  store : List (Nat × Nat)
deriving Repr, DecidableEq

/-- The compile-time initial pool for `reservedCount = N`: free chain
`[N, N-1, ..., 1]`, no closure stored. -/
def callbackPoolInit (N : Nat) : CallbackPool :=
  ⟨(List.range N).reverse.map (· + 1), []⟩

/-- `Allocator::Allocate` (InstantCallback.h lines 731-750): panic
(`none`) when the free list is empty; otherwise read the head node's saved
`individualTrampoline` (returned to the caller), move the closure into the
head node's union, and pop the head.  The returned callback is identified
by the node index the trampoline dispatches into. -/
def CallbackFromAllocate (p : CallbackPool) (closure : Nat) :
    Option (Nat × CallbackPool) :=
  match p.free with
  | [] => none
  | h :: t => some (nodeTrampolineTarget h, ⟨t, (h, closure) :: p.store⟩)

/-- The single-shot `apply` body (InstantCallback.h lines 595-606)
invoked through a returned callback pointer whose trampoline reads node
`target`: move the closure out of node `target`, restore the trampoline
slot, free the node, and run the moved closure.  `none` when node
`target` holds no closure (undefined behaviour in the source). -/
def invokeSingleShot (p : CallbackPool) (target : Nat) :
    Option (Nat × CallbackPool) :=
  match p.store.lookup target with
  | none => none
  | some c =>
    some (c, ⟨target :: p.free, p.store.eraseP (fun pr => pr.1 == target)⟩)

/-! ## ActionNode cancellation world (InstantScheduler.h)

For claim C7 the relevant state is one scheduler queue, one
`MulticastToActions` (its two intrusive lists and the `useFirst` bit) and
a set of `ActionNode`s addressed by identity.  The union of
`scheduleData` and `multicastToActionsRemoveAfterCall` (lines 342-353) is
the `CancelNodeData` sum; `scheduledWith` collapses to a flag since one
scheduler exists.  Handlers fired below do not touch any node, matching
the claim's reading of `Cancel` in isolation. -/

/-- The union inside `ActionNode` (InstantScheduler.h lines 342-353). -/
inductive CancelNodeData where
  | sched (absoluteScheduleTime periodTicksAgain : Nat)
  | listen (removeAfterCall : Bool)
  | idle
deriving Repr, DecidableEq

/-- An `ActionNode` as needed for `Cancel`: the owning-scheduler flag and
the union. -/
structure CancelNode where
  scheduledWith : Bool
  data : CancelNodeData
deriving Repr, DecidableEq

/-- One scheduler queue, one multicast (two lists plus `useFirst`,
InstantScheduler.h lines 491-513), and the node map. -/
structure CancelWorld where
  nodes : List (Nat × CancelNode)
  schedQueue : List Nat
  listA : List Nat
  listB : List Nat
  useFirst : Bool
deriving Repr, DecidableEq

/-- Update one node in the map. -/
def updateCancelNode (nodes : List (Nat × CancelNode)) (id : Nat)
    (f : CancelNode → CancelNode) : List (Nat × CancelNode) :=
  nodes.map (fun pr => if pr.1 == id then (pr.1, f pr.2) else pr)

/-- `ActionNode::listenTo` (InstantScheduler.h lines 639-651): clear
`scheduledWith`, insert at the back of `actionsToExecute[useFirst]`
(`InsertAtBack` first detaches the node from any chain), and record the
auto-remove flag in the union. -/
def ActionNode_listenTo (w : CancelWorld) (id : Nat)
    (removeAfterCall : Bool) : CancelWorld :=
  let nodes := updateCancelNode w.nodes id
    (fun _ => ⟨false, .listen removeAfterCall⟩)
  let sq := w.schedQueue.filter (fun x => x != id)
  let qa := w.listA.filter (fun x => x != id)
  let qb := w.listB.filter (fun x => x != id)
  if w.useFirst then ⟨nodes, sq, qa, qb ++ [id], w.useFirst⟩
  else ⟨nodes, sq, qa ++ [id], qb, w.useFirst⟩

/-- `ActionNode::Cancel` (InstantScheduler.h lines 661-678): only when
`scheduledWith` is set, detach the node, zero `periodTicksAgain` and clear
`scheduledWith`; otherwise the body is skipped entirely. -/
def ActionNode_Cancel (w : CancelWorld) (id : Nat) : CancelWorld :=
  match w.nodes.lookup id with
  | none => w
  | some n =>
    if n.scheduledWith then
      { w with
        nodes := updateCancelNode w.nodes id
          (fun n => ⟨false, match n.data with
            | .sched t _ => .sched t 0
            | d => d⟩)
        schedQueue := w.schedQueue.filter (fun x => x != id)
        listA := w.listA.filter (fun x => x != id)
        listB := w.listB.filter (fun x => x != id) }
    else w

/-- `ActionNode::IsListening` (InstantScheduler.h lines 654-658):
neither scheduled nor a single-element chain. -/
def ActionNode_IsListening (w : CancelWorld) (id : Nat) : Bool :=
  match w.nodes.lookup id with
  | none => false
  | some n =>
    !n.scheduledWith &&
      (w.schedQueue.contains id || w.listA.contains id || w.listB.contains id)

/-- `MulticastToActions::operator()` (InstantScheduler.h lines 911-946)
with handlers that do not re-attach their node: flip `useFirst`, pop and
invoke every entry of the previously receiving list in order, and re-add
to the now-receiving list exactly the entries whose `removeAfterCall`
flag is false (each such node is still a single chain element after its
no-op handler).  Returns the world and the invoked node identities. -/
def MulticastToActions_fire (w : CancelWorld) : CancelWorld × List Nat :=
  let u := w.useFirst
  let captured := if u then w.listB else w.listA
  let readd := captured.filter (fun id =>
    match w.nodes.lookup id with
    | some n =>
      match n.data with
      | .listen r => !r
      | _ => false
    | none => false)
  if u then
    ({ w with useFirst := !u, listB := [], listA := w.listA ++ readd }, captured)
  else
    ({ w with useFirst := !u, listA := [], listB := w.listB ++ readd }, captured)

/-! ## Scheduler-driven debouncer (InstantDebounce.h)

`DebounceBase` / `DebounceAction` state and operations (InstantDebounce.h
lines 130-262).  `IntervalCount` is `unsigned char`, so the consecutive
sample counter wraps at 256.  Handlers invoked by the debouncer are `Nat`
identities, 0 standing for the default do-nothing lambdas. -/

/-- `DebounceBase` plus the `DebounceAction` callback slots. -/
structure DebounceState where
  currentDebouncedVal : Bool
  checkInterval : Nat
  successCountExpected : Nat
  successCountCurrent : Nat
  onTrue : Nat
  onFalse : Nat
deriving Repr, DecidableEq

/-- `DebounceBase::Value` (InstantDebounce.h lines 152-155):
`successCountCurrent >= successCountExpected`. -/
def DebounceBase_Value (d : DebounceState) : Bool :=
  d.successCountCurrent ≥ d.successCountExpected

/-- `DebounceAction::OnTrue` (InstantDebounce.h lines 219-223). -/
def DebounceAction_OnTrue (d : DebounceState) (cb : Nat) : DebounceState :=
  { d with onTrue := cb }

/-- `DebounceAction::OnFalse` (InstantDebounce.h lines 225-229): the body
assigns `onTrue = callbackOnFalse`. -/
def DebounceAction_OnFalse (d : DebounceState) (cb : Nat) : DebounceState :=
  { d with onTrue := cb }

/-- `DebounceBase::Discover` (InstantDebounce.h lines 173-186): on a
sample differing from the stable value, pre-increment the counter and
toggle when it reaches the expected count; on a matching sample reset the
counter. -/
def DebounceBase_Discover (d : DebounceState) (raw : Bool) :
    DebounceState × Bool :=
  if raw ≠ d.currentDebouncedVal then
    let c := (d.successCountCurrent + 1) % 256
    if c ≥ d.successCountExpected then
      ({ d with
          successCountCurrent := c
          currentDebouncedVal := !d.currentDebouncedVal }, true)
    else
      ({ d with successCountCurrent := c }, false)
  else
    ({ d with successCountCurrent := 0 }, false)

/-- `DebounceAction::ActionHandler` (InstantDebounce.h lines 250-261):
run `Discover` on the raw sample; on a toggle invoke `onTrue` when
`Value()` holds and `onFalse` otherwise. -/
def DebounceAction_ActionHandler (d : DebounceState) (raw : Bool) :
    DebounceState × List Nat :=
  let r := DebounceBase_Discover d raw
  if r.2 then
    if DebounceBase_Value r.1 then (r.1, [r.1.onTrue])
    else (r.1, [r.1.onFalse])
  else (r.1, [])

/-- `DebounceBase::Schedule` (InstantDebounce.h lines 163-171):
`action.Set(callback).ScheduleAfter(targetScheduler, checkInterval)` with
the period argument left at its default 0. -/
def DebounceBase_Schedule (s : SchedulerState) (d : DebounceState)
    (nodeId : Nat) : SchedulerState :=
  ScheduleAfter s nodeId d.checkInterval 0

/-- Result of driving a scheduler that hosts the debounce action. -/
structure DebounceRun where
  sched : SchedulerState
  deb : DebounceState
  samples : Nat
  invoked : List Nat
  completed : Bool
deriving Repr, DecidableEq

/-- The `ExecuteOne` loop of `ExecuteAll` where each fired node is the
debounce action: its `Thenable<void>` handler is
`DebounceAction::ActionHandler` reading the raw source value `raw`. -/
def debounceExecuteAllGo :
    Nat → SchedulerState → DebounceState → Bool → Nat → DebounceRun
  | 0, s, d, _, _ => ⟨s, d, 0, [], false⟩
  | fuel + 1, s, d, raw, now =>
    match ExecuteOne s now with
    | (s1, none) => ⟨s1, d, 0, [], true⟩
    | (s1, some _) =>
      let h := DebounceAction_ActionHandler d raw
      let r := debounceExecuteAllGo fuel s1 h.1 raw now
      ⟨r.sched, r.deb, r.samples + 1, h.2 ++ r.invoked, r.completed⟩

/-- `Scheduler::ExecuteAll` driving the debounce action: the statistics
update of `ExecuteAll` followed by the loop. -/
def debounceExecuteAll (fuel : Nat) (s : SchedulerState) (d : DebounceState)
    (raw : Bool) (now : Nat) : DebounceRun :=
  let s1 : SchedulerState :=
    { s with
      statisticsDelayBetweenExecuteAll :=
        monitorOnMeasurement s.statisticsDelayBetweenExecuteAll
          (tsub (now % USIZE) s.previousExecuteAllKnownAbsoluteTicks)
      previousExecuteAllKnownAbsoluteTicks := now % USIZE }
  debounceExecuteAllGo fuel s1 d raw now

/-- Drive `ExecuteAll` with the debounce action at a sequence of
`(tick, raw value)` observations. -/
def debounceExecuteAllSeq (fuel : Nat) (s : SchedulerState)
    (d : DebounceState) : List (Nat × Bool) → DebounceRun
  | [] => ⟨s, d, 0, [], true⟩
  | (t, raw) :: ts =>
    let r := debounceExecuteAll fuel s d raw t
    let rest := debounceExecuteAllSeq fuel r.sched r.deb ts
    ⟨rest.sched, rest.deb, r.samples + rest.samples,
      r.invoked ++ rest.invoked, r.completed && rest.completed⟩

/-! ## Theorems about Thenable (claims C1, C2, C8) -/

/-- C1: for every `Thenable<T>` in its initial state and handler `h`,
`resolve(v); Then(h)` invokes `h` exactly once with `v`;
`resolve(v1); resolve(v2); Then(h)` invokes `h` exactly once with `v2`;
`Then(h); resolve(v)` invokes `h` exactly once with `v`.  The invocation
log of each run is exactly the corresponding singleton. -/
theorem c1_thenable_producer_consumer_order {T : Type} (v v1 v2 : T) (h : Nat) :
    (thenableRun (thenableInit T) [.resolve v, .subscribe h]).2 = [(h, v)] ∧
    (thenableRun (thenableInit T) [.resolve v1, .resolve v2, .subscribe h]).2 = [(h, v2)] ∧
    (thenableRun (thenableInit T) [.subscribe h, .resolve v]).2 = [(h, v)] :=
  ⟨rfl, rfl, rfl⟩

/-- C2 (code behaviour at the failing input): on a fresh `Thenable<void>`,
one `resolve` followed by `Then(h)` invokes no handler at all; the
handler is merely installed for a future call.  The condition at
InstantThenable.h line 546 tests `correspondingCaller != marker` where
redeeming a pending event would require `== marker`, so the branch that
would run the handler is unreachable from the counted state. -/
theorem c2_void_then_after_resolve_never_fires (h : Nat) :
    (thenableVoidRun thenableVoidInit [.resolve, .subscribe h]).2 = [] ∧
    (thenableVoidRun thenableVoidInit [.resolve, .subscribe h]).1.caller = some h :=
  ⟨rfl, rfl⟩

/-- C8 (counterexample): after `resolve(7); resolve(8)` on a fresh
`Thenable<int>`, it is not the case that `UntrackedEventsCount()` is 1
before `Then(h)` and 0 after: the count is incremented once per untracked
`resolve` and decremented once by the redeeming `Then`. -/
theorem c8_untracked_count_counterexample :
    ¬(thenableUntrackedEventsCount
        (thenableRun (thenableInit Int) [.resolve 7, .resolve 8]).1 = 1 ∧
      thenableUntrackedEventsCount
        (thenableRun (thenableInit Int) [.resolve 7, .resolve 8, .subscribe 0]).1 = 0) := by
  decide

/-- C8 (amended): after `resolve(7); resolve(8)` on a fresh
`Thenable<int>`, `UntrackedEventsCount()` returns 2 before `Then(h)` and
1 after `Then(h)`, and `h` is invoked exactly once with 8. -/
theorem c8_untracked_count_amended (h : Nat) :
    thenableUntrackedEventsCount
      (thenableRun (thenableInit Int) [.resolve 7, .resolve 8]).1 = 2 ∧
    thenableUntrackedEventsCount
      (thenableRun (thenableInit Int) [.resolve 7, .resolve 8, .subscribe h]).1 = 1 ∧
    (thenableRun (thenableInit Int) [.resolve 7, .resolve 8, .subscribe h]).2 = [(h, 8)] :=
  ⟨rfl, rfl, rfl⟩

/-! ## Theorems about the Scheduler (claims C4, C10) -/

/-- C10: when the queue is empty or the head entry is still in the future
under cyclic comparison, `ExecuteOne(now)` executes nothing and changes no
scheduler state other than `knownAbsoluteTicks` (set to `now`) and the
statistics monitor of `ExecuteOne`; in particular the queue is unchanged
entry for entry. -/
theorem c10_execute_one_idle_frame (s : SchedulerState) (now : Nat)
    (hidle : s.queue = [] ∨
      ∃ a rest, s.queue = a :: rest ∧ TicksIsLess (now % USIZE) a.time = true) :
    (ExecuteOne s now).2 = none ∧
    (ExecuteOne s now).1.queue = s.queue ∧
    (ExecuteOne s now).1.knownAbsoluteTicks = now % USIZE ∧
    (ExecuteOne s now).1.previousExecuteAllKnownAbsoluteTicks =
      s.previousExecuteAllKnownAbsoluteTicks ∧
    (ExecuteOne s now).1.statisticsDelayBetweenExecuteAll =
      s.statisticsDelayBetweenExecuteAll := by
  rcases hidle with hq | ⟨a, rest, hq, hlt⟩
  · simp [ExecuteOne, hq]
  · simp [ExecuteOne, hq, hlt]

/-- Witness for C10 at a concrete idle state: a single entry scheduled at
tick 100 while `ExecuteOne` runs at tick 50. -/
theorem c10_execute_one_idle_frame_witness :
    (ExecuteOne ⟨0, [⟨1, 100, 0⟩], 0, monitorInit, monitorInit⟩ 50).2 = none ∧
    (ExecuteOne ⟨0, [⟨1, 100, 0⟩], 0, monitorInit, monitorInit⟩ 50).1.queue =
      (⟨0, [⟨1, 100, 0⟩], 0, monitorInit, monitorInit⟩ : SchedulerState).queue ∧
    (ExecuteOne ⟨0, [⟨1, 100, 0⟩], 0, monitorInit, monitorInit⟩
      50).1.knownAbsoluteTicks = 50 % USIZE ∧
    (ExecuteOne ⟨0, [⟨1, 100, 0⟩], 0, monitorInit, monitorInit⟩
      50).1.previousExecuteAllKnownAbsoluteTicks =
      (⟨0, [⟨1, 100, 0⟩], 0, monitorInit, monitorInit⟩ :
        SchedulerState).previousExecuteAllKnownAbsoluteTicks ∧
    (ExecuteOne ⟨0, [⟨1, 100, 0⟩], 0, monitorInit, monitorInit⟩
      50).1.statisticsDelayBetweenExecuteAll =
      (⟨0, [⟨1, 100, 0⟩], 0, monitorInit, monitorInit⟩ :
        SchedulerState).statisticsDelayBetweenExecuteAll :=
  c10_execute_one_idle_frame ⟨0, [⟨1, 100, 0⟩], 0, monitorInit, monitorInit⟩ 50
    (Or.inr ⟨⟨1, 100, 0⟩, [], rfl, by decide⟩)

/-- C4: a periodic `ActionNode` that fires is re-armed for
`knownAbsoluteTicks + periodTicksAgain`, where `knownAbsoluteTicks` is the
tick the scheduler recorded for this `ExecuteOne` call; and in the
concrete scenario (first = 10, period = 25 scheduled at `now = 0`, driven
by `ExecuteAll` at t in {10, 34, 35, 60, 90}) the node fires with
scheduled ticks 10, 35, 60, 85. -/
theorem c4_periodic_rearm :
    (∀ (s : SchedulerState) (a : ActionEntry) (rest : List ActionEntry) (now : Nat),
      s.queue = a :: rest →
      TicksIsLess (now % USIZE) a.time = false →
      a.period ≠ 0 →
      (ExecuteOne s now).2 = some (a.id, a.time) ∧
      (ExecuteOne s now).1.knownAbsoluteTicks = now % USIZE ∧
      (ExecuteOne s now).1.queue =
        insertAfterFindPlace
          { a with time := tadd (ExecuteOne s now).1.knownAbsoluteTicks a.period }
          rest) ∧
    (executeAllSeq 4 (ScheduleAfter (SchedulerStart schedulerInit 0) 1 10 25)
        [10, 34, 35, 60, 90]).fired = [(1, 10), (1, 35), (1, 60), (1, 85)] ∧
    (executeAllSeq 4 (ScheduleAfter (SchedulerStart schedulerInit 0) 1 10 25)
        [10, 34, 35, 60, 90]).completed = true := by
  refine ⟨fun s a rest now hq hlt hp => ?_, by decide, by decide⟩
  simp [ExecuteOne, hq, hlt, hp]

/-- Witness for C4 at a concrete input: one periodic entry (time 10,
period 25) fired at tick 10. -/
theorem c4_periodic_rearm_witness :
    (ExecuteOne ⟨0, [⟨1, 10, 25⟩], 0, monitorInit, monitorInit⟩ 10).2 =
      some (1, 10) ∧
    (ExecuteOne ⟨0, [⟨1, 10, 25⟩], 0, monitorInit, monitorInit⟩
      10).1.knownAbsoluteTicks = 10 % USIZE ∧
    (ExecuteOne ⟨0, [⟨1, 10, 25⟩], 0, monitorInit, monitorInit⟩ 10).1.queue =
      insertAfterFindPlace
        ⟨1, tadd (ExecuteOne ⟨0, [⟨1, 10, 25⟩], 0, monitorInit, monitorInit⟩
          10).1.knownAbsoluteTicks 25, 25⟩ [] :=
  c4_periodic_rearm.1 ⟨0, [⟨1, 10, 25⟩], 0, monitorInit, monitorInit⟩
    ⟨1, 10, 25⟩ [] 10 rfl (by decide) (by decide)

/-! ## Cyclic-arithmetic and queue lemmas used for claim C3

Within the half-range window the cyclic order on times coincides with the
linear order on offsets from the tick at which the scheduler was started,
and `scheduleAfterFindPlace` is a stable insertion by that offset. -/

theorem USIZE_eq : USIZE = 4294967296 := by norm_num [USIZE]

theorem DeltaMax_eq : DeltaMax = 2147483647 := by norm_num [DeltaMax, USIZE]

theorem tadd_lt (a b : Nat) : tadd a b < USIZE := by
  simp only [tadd, USIZE_eq]
  omega

theorem tsub_tadd_self (n d : Nat) (hn : n < USIZE) (hd : d < USIZE) :
    tsub (tadd n d) n = d := by
  simp only [tsub, tadd, USIZE_eq] at *
  omega

theorem tadd_right_injective (n d1 d2 : Nat) (hn : n < USIZE)
    (h1 : d1 < USIZE) (h2 : d2 < USIZE) (h : tadd n d1 = tadd n d2) :
    d1 = d2 := by
  simp only [tadd, USIZE_eq] at *
  omega

theorem ticksIsLess_tadd_iff (n k1 k2 : Nat) (hn : n < USIZE)
    (h1 : k1 ≤ DeltaMax) (h2 : k2 ≤ DeltaMax) :
    TicksIsLess (tadd n k1) (tadd n k2) = true ↔ k1 < k2 := by
  simp only [TicksIsLess, tsub, tadd, USIZE_eq, DeltaMax_eq,
    gt_iff_lt, decide_eq_true_eq] at *
  omega

theorem insertAfterFindPlace_perm (e : ActionEntry) (q : List ActionEntry) :
    List.Perm (insertAfterFindPlace e q) (e :: q) := by
  induction q with
  | nil => exact List.Perm.refl _
  | cons x xs ih =>
    cases h : TicksIsLess e.time x.time with
    | true => simp [insertAfterFindPlace, h]
    | false =>
      simp only [insertAfterFindPlace, h, Bool.false_eq_true, if_false]
      exact (ih.cons x).trans (List.Perm.swap e x xs)

theorem mem_insertAfterFindPlace {e y : ActionEntry} {q : List ActionEntry}
    (h : y ∈ insertAfterFindPlace e q) : y = e ∨ y ∈ q := by
  have := (insertAfterFindPlace_perm e q).mem_iff.mp h
  simpa using this

theorem tadd_tsub_self (n t : Nat) (hn : n < USIZE) (ht : t < USIZE) :
    tadd n (tsub t n) = t := by
  simp only [tadd, tsub, USIZE_eq] at *
  omega

theorem ticksIsLess_iff_key (n t1 t2 : Nat) (hn : n < USIZE)
    (h1t : t1 < USIZE) (h1k : tsub t1 n ≤ DeltaMax)
    (h2t : t2 < USIZE) (h2k : tsub t2 n ≤ DeltaMax) :
    TicksIsLess t1 t2 = true ↔ tsub t1 n < tsub t2 n := by
  simp only [TicksIsLess, tsub, USIZE_eq, DeltaMax_eq,
    gt_iff_lt, decide_eq_true_eq] at *
  omega

theorem insertAfterFindPlace_pairwise (n : Nat) (e : ActionEntry)
    (q : List ActionEntry) (hn : n < USIZE)
    (hwe : e.time < USIZE ∧ tsub e.time n ≤ DeltaMax)
    (hwq : ∀ x ∈ q, x.time < USIZE ∧ tsub x.time n ≤ DeltaMax)
    (hs : q.Pairwise (fun a b => tsub a.time n ≤ tsub b.time n)) :
    (insertAfterFindPlace e q).Pairwise
      (fun a b => tsub a.time n ≤ tsub b.time n) := by
  induction q with
  | nil => simp [insertAfterFindPlace]
  | cons x xs ih =>
    have hwx := hwq x (List.mem_cons_self x xs)
    have hwxs : ∀ y ∈ xs, y.time < USIZE ∧ tsub y.time n ≤ DeltaMax :=
      fun y hy => hwq y (List.mem_cons_of_mem x hy)
    rcases List.pairwise_cons.mp hs with ⟨hx_all, hxs⟩
    cases c : TicksIsLess e.time x.time with
    | true =>
      have hek : tsub e.time n < tsub x.time n :=
        (ticksIsLess_iff_key n e.time x.time hn hwe.1 hwe.2 hwx.1 hwx.2).mp c
      simp only [insertAfterFindPlace, c, if_true]
      refine List.pairwise_cons.mpr ⟨?_, hs⟩
      intro y hy
      rcases List.mem_cons.mp hy with rfl | hy2
      · exact Nat.le_of_lt hek
      · exact Nat.le_of_lt (Nat.lt_of_lt_of_le hek (hx_all y hy2))
    | false =>
      have hxe : tsub x.time n ≤ tsub e.time n := by
        have hiff := ticksIsLess_iff_key n e.time x.time hn hwe.1 hwe.2 hwx.1 hwx.2
        have : ¬ tsub e.time n < tsub x.time n := fun hlt => by
          have := hiff.mpr hlt
          rw [this] at c
          exact Bool.noConfusion c
        omega
      simp only [insertAfterFindPlace, c, Bool.false_eq_true, if_false]
      refine List.pairwise_cons.mpr ⟨?_, ih hwxs hxs⟩
      intro y hy
      rcases mem_insertAfterFindPlace hy with rfl | hy2
      · exact hxe
      · exact hx_all y hy2

theorem insertAfterFindPlace_filter_of_ne (p : ActionEntry → Bool)
    (e : ActionEntry) (q : List ActionEntry) (hpe : p e = false) :
    (insertAfterFindPlace e q).filter p = q.filter p := by
  induction q with
  | nil => simp [insertAfterFindPlace, hpe]
  | cons x xs ih =>
    cases c : TicksIsLess e.time x.time with
    | true => simp [insertAfterFindPlace, c, hpe, List.filter_cons]
    | false => simp [insertAfterFindPlace, c, List.filter_cons, ih]

theorem insertAfterFindPlace_filter_self (n : Nat) (e : ActionEntry)
    (q : List ActionEntry) (hn : n < USIZE)
    (hwe : e.time < USIZE ∧ tsub e.time n ≤ DeltaMax)
    (hwq : ∀ x ∈ q, x.time < USIZE ∧ tsub x.time n ≤ DeltaMax)
    (hs : q.Pairwise (fun a b => tsub a.time n ≤ tsub b.time n)) :
    (insertAfterFindPlace e q).filter (fun x => x.time == e.time) =
      q.filter (fun x => x.time == e.time) ++ [e] := by
  induction q with
  | nil => simp [insertAfterFindPlace]
  | cons x xs ih =>
    have hwx := hwq x (List.mem_cons_self x xs)
    have hwxs : ∀ y ∈ xs, y.time < USIZE ∧ tsub y.time n ≤ DeltaMax :=
      fun y hy => hwq y (List.mem_cons_of_mem x hy)
    rcases List.pairwise_cons.mp hs with ⟨hx_all, hxs⟩
    cases c : TicksIsLess e.time x.time with
    | true =>
      have hek : tsub e.time n < tsub x.time n :=
        (ticksIsLess_iff_key n e.time x.time hn hwe.1 hwe.2 hwx.1 hwx.2).mp c
      have hnil : (x :: xs).filter (fun y => y.time == e.time) = [] := by
        refine List.filter_eq_nil_iff.mpr ?_
        intro y hy
        have hky : tsub e.time n < tsub y.time n := by
          rcases List.mem_cons.mp hy with rfl | hy2
          · exact hek
          · exact Nat.lt_of_lt_of_le hek (hx_all y hy2)
        simp only [beq_iff_eq]
        intro hteq
        rw [hteq] at hky
        omega
      simp only [insertAfterFindPlace, c, if_true]
      rw [List.filter_cons_of_pos (by simp), hnil]
      simp
    | false =>
      simp only [insertAfterFindPlace, c, Bool.false_eq_true, if_false]
      rw [List.filter_cons, List.filter_cons, ih hwxs hxs]
      cases hx : x.time == e.time with
      | true => simp
      | false => simp

theorem filter_id_ne_eq_self (q : List ActionEntry) (i : Nat)
    (h : ∀ e ∈ q, e.id ≠ i) : q.filter (fun x => x.id != i) = q :=
  List.filter_eq_self.mpr fun e he => by simpa using h e he

theorem foldSched_spec (n : Nat) (hn : n < USIZE) :
    ∀ (l done : List (Nat × Nat)) (s : SchedulerState),
    s.knownAbsoluteTicks = n →
    (∀ e ∈ s.queue, e.time < USIZE ∧ tsub e.time n ≤ DeltaMax ∧ e.period = 0) →
    s.queue.Pairwise (fun a b => tsub a.time n ≤ tsub b.time n) →
    List.Perm s.queue (done.map (mkEntry n)) →
    (∀ δ, δ ≤ DeltaMax →
      (s.queue.filter (fun x => x.time == tadd n δ)).map ActionEntry.id
        = (done.filter (fun p => p.2 == δ)).map Prod.fst) →
    (∀ p ∈ l, p.2 ≤ DeltaMax) →
    (∀ p ∈ l, ∀ p2 ∈ done, p.1 ≠ p2.1) →
    l.Pairwise (fun p q => p.1 ≠ q.1) →
    (foldSched s l).knownAbsoluteTicks = n ∧
    (∀ e ∈ (foldSched s l).queue,
      e.time < USIZE ∧ tsub e.time n ≤ DeltaMax ∧ e.period = 0) ∧
    (foldSched s l).queue.Pairwise (fun a b => tsub a.time n ≤ tsub b.time n) ∧
    List.Perm (foldSched s l).queue ((done ++ l).map (mkEntry n)) ∧
    (∀ δ, δ ≤ DeltaMax →
      ((foldSched s l).queue.filter (fun x => x.time == tadd n δ)).map ActionEntry.id
        = ((done ++ l).filter (fun p => p.2 == δ)).map Prod.fst) := by
  intro l
  induction l with
  | nil =>
    intro done s h1 h2 h3 h4 h5 _ _ _
    exact ⟨h1, h2, h3, by simpa [foldSched] using h4, by simpa [foldSched] using h5⟩
  | cons p l' ih =>
    intro done s hkn hw hsort hperm hstab hdl hdisj hpair
    have hdp : p.2 ≤ DeltaMax := hdl p (List.mem_cons_self p l')
    have hdpU : p.2 < USIZE := by
      have := DeltaMax_eq; have := USIZE_eq; omega
    -- the filter inside ScheduleAfter removes nothing
    have hfid : s.queue.filter (fun x => x.id != p.1) = s.queue := by
      refine filter_id_ne_eq_self s.queue p.1 ?_
      intro e he
      rcases (hperm.mem_iff.mp he) with hmem
      rcases List.mem_map.mp hmem with ⟨pd, hpd, rfl⟩
      exact fun hcontra => hdisj p (List.mem_cons_self p l') pd hpd hcontra.symm
    have hq' : (ScheduleAfter s p.1 p.2 0).queue
        = insertAfterFindPlace (mkEntry n p) s.queue := by
      simp [ScheduleAfter, hkn, mkEntry, hfid]
    have hk' : (ScheduleAfter s p.1 p.2 0).knownAbsoluteTicks = n := by
      simp [ScheduleAfter, hkn]
    have hwE : (mkEntry n p).time < USIZE ∧ tsub (mkEntry n p).time n ≤ DeltaMax := by
      refine ⟨tadd_lt n p.2, ?_⟩
      rw [mkEntry]
      simpa [tsub_tadd_self n p.2 hn hdpU] using hdp
    have hwq2 : ∀ x ∈ s.queue, x.time < USIZE ∧ tsub x.time n ≤ DeltaMax :=
      fun x hx => ⟨(hw x hx).1, (hw x hx).2.1⟩
    -- premises of the induction hypothesis at the new state
    have hw' : ∀ e ∈ (ScheduleAfter s p.1 p.2 0).queue,
        e.time < USIZE ∧ tsub e.time n ≤ DeltaMax ∧ e.period = 0 := by
      intro e he
      rw [hq'] at he
      rcases mem_insertAfterFindPlace he with rfl | he2
      · exact ⟨hwE.1, hwE.2, rfl⟩
      · exact hw e he2
    have hsort' : (ScheduleAfter s p.1 p.2 0).queue.Pairwise
        (fun a b => tsub a.time n ≤ tsub b.time n) := by
      rw [hq']
      exact insertAfterFindPlace_pairwise n (mkEntry n p) s.queue hn hwE hwq2 hsort
    have hperm' : List.Perm (ScheduleAfter s p.1 p.2 0).queue
        ((done ++ [p]).map (mkEntry n)) := by
      rw [hq', List.map_append]
      refine ((insertAfterFindPlace_perm (mkEntry n p) s.queue).trans
        (hperm.cons (mkEntry n p))).trans ?_
      simpa using (List.perm_append_singleton (mkEntry n p) (done.map (mkEntry n))).symm
    have hstab' : ∀ δ, δ ≤ DeltaMax →
        ((ScheduleAfter s p.1 p.2 0).queue.filter
            (fun x => x.time == tadd n δ)).map ActionEntry.id
          = ((done ++ [p]).filter (fun pp => pp.2 == δ)).map Prod.fst := by
      intro δ hδ
      have hδU : δ < USIZE := by
        have := DeltaMax_eq; have := USIZE_eq; omega
      rw [hq']
      by_cases hcase : δ = p.2
      · subst hcase
        have hte : tadd n p.2 = (mkEntry n p).time := rfl
        rw [hte, insertAfterFindPlace_filter_self n (mkEntry n p) s.queue hn hwE hwq2 hsort]
        rw [List.map_append, ← hte, hstab p.2 hδ]
        simp [mkEntry]
      · have hne : ((mkEntry n p).time == tadd n δ) = false := by
          simp only [beq_eq_false_iff_ne, ne_eq, mkEntry]
          intro hcontra
          exact hcase (tadd_right_injective n δ p.2 hn hδU hdpU hcontra.symm)
        rw [insertAfterFindPlace_filter_of_ne _ _ _ hne, hstab δ hδ]
        have : (p.2 == δ) = false := by
          simp only [beq_eq_false_iff_ne, ne_eq]
          exact fun hcontra => hcase hcontra.symm
        simp [List.filter_append, this]
    have hdl' : ∀ pp ∈ l', pp.2 ≤ DeltaMax :=
      fun pp hpp => hdl pp (List.mem_cons_of_mem p hpp)
    have hdisj' : ∀ pp ∈ l', ∀ p2 ∈ done ++ [p], pp.1 ≠ p2.1 := by
      intro pp hpp p2 hp2
      rcases List.mem_append.mp hp2 with hp2d | hp2p
      · exact hdisj pp (List.mem_cons_of_mem p hpp) p2 hp2d
      · have : p2 = p := by simpa using hp2p
        subst this
        exact ((List.pairwise_cons.mp hpair).1 pp hpp).symm
    have hpair' : l'.Pairwise (fun p q => p.1 ≠ q.1) :=
      (List.pairwise_cons.mp hpair).2
    have hres := ih (done ++ [p]) (ScheduleAfter s p.1 p.2 0)
      hk' hw' hsort' hperm' hstab' hdl' hdisj' hpair'
    have hfold : foldSched s (p :: l') = foldSched (ScheduleAfter s p.1 p.2 0) l' := rfl
    rw [hfold]
    have happ : (done ++ [p]) ++ l' = done ++ p :: l' := by simp
    rw [happ] at hres
    exact hres

theorem ExecuteOne_not_due (s : SchedulerState) (now : Nat) (a : ActionEntry)
    (rest : List ActionEntry) (hq : s.queue = a :: rest)
    (c : TicksIsLess (now % USIZE) a.time = true) :
    ExecuteOne s now =
      ({ s with
          statisticsDelayBetweenExecuteOne :=
            monitorOnMeasurement s.statisticsDelayBetweenExecuteOne
              (tsub (now % USIZE) s.knownAbsoluteTicks)
          knownAbsoluteTicks := now % USIZE }, none) := by
  simp [ExecuteOne, hq, c]

theorem ExecuteOne_fire_period0 (s : SchedulerState) (now : Nat) (a : ActionEntry)
    (rest : List ActionEntry) (hq : s.queue = a :: rest)
    (c : TicksIsLess (now % USIZE) a.time = false) (hp : a.period = 0) :
    ExecuteOne s now =
      ({ s with
          statisticsDelayBetweenExecuteOne :=
            monitorOnMeasurement s.statisticsDelayBetweenExecuteOne
              (tsub (now % USIZE) s.knownAbsoluteTicks)
          knownAbsoluteTicks := now % USIZE
          queue := rest }, some (a.id, a.time)) := by
  simp [ExecuteOne, hq, c, hp]

theorem executeAllGo_period0 (now : Nat) :
    ∀ (q : List ActionEntry) (s : SchedulerState), s.queue = q →
    (∀ e ∈ q, e.period = 0) →
    (executeAllGo (q.length + 1) s now).completed = true ∧
    (executeAllGo (q.length + 1) s now).fired =
      (q.takeWhile (fun e => !TicksIsLess (now % USIZE) e.time)).map
        (fun e => (e.id, e.time)) ∧
    (executeAllGo (q.length + 1) s now).state.queue =
      q.dropWhile (fun e => !TicksIsLess (now % USIZE) e.time) := by
  intro q
  induction q with
  | nil =>
    intro s hq _
    simp [executeAllGo, ExecuteOne, hq]
  | cons a rest ih =>
    intro s hq hper
    have hpa : a.period = 0 := hper a (List.mem_cons_self a rest)
    cases c : TicksIsLess (now % USIZE) a.time with
    | true =>
      have hstep := ExecuteOne_not_due s now a rest hq c
      simp [executeAllGo, hstep, c, hq]
    | false =>
      have hstep := ExecuteOne_fire_period0 s now a rest hq c hpa
      have hrec := ih
        ({ s with
            statisticsDelayBetweenExecuteOne :=
              monitorOnMeasurement s.statisticsDelayBetweenExecuteOne
                (tsub (now % USIZE) s.knownAbsoluteTicks)
            knownAbsoluteTicks := now % USIZE
            queue := rest })
        rfl (fun e he => hper e (List.mem_cons_of_mem a he))
      obtain ⟨rc, rf, rq⟩ := hrec
      have hone : executeAllGo ((a :: rest).length + 1) s now =
          ⟨(executeAllGo (rest.length + 1)
              ({ s with
                  statisticsDelayBetweenExecuteOne :=
                    monitorOnMeasurement s.statisticsDelayBetweenExecuteOne
                      (tsub (now % USIZE) s.knownAbsoluteTicks)
                  knownAbsoluteTicks := now % USIZE
                  queue := rest }) now).state,
            (a.id, a.time) :: (executeAllGo (rest.length + 1)
              ({ s with
                  statisticsDelayBetweenExecuteOne :=
                    monitorOnMeasurement s.statisticsDelayBetweenExecuteOne
                      (tsub (now % USIZE) s.knownAbsoluteTicks)
                  knownAbsoluteTicks := now % USIZE
                  queue := rest }) now).fired,
            (executeAllGo (rest.length + 1)
              ({ s with
                  statisticsDelayBetweenExecuteOne :=
                    monitorOnMeasurement s.statisticsDelayBetweenExecuteOne
                      (tsub (now % USIZE) s.knownAbsoluteTicks)
                  knownAbsoluteTicks := now % USIZE
                  queue := rest }) now).completed⟩ := by
        show (match ExecuteOne s now with
          | (s1, none) => (⟨s1, [], true⟩ : ExecResult)
          | (s1, some f) =>
            let r := executeAllGo ((a :: rest).length) s1 now
            ⟨r.state, f :: r.fired, r.completed⟩) = _
        rw [hstep]
        simp
      rw [hone]
      refine ⟨rc, ?_, ?_⟩
      · rw [rf]
        simp [c]
      · rw [rq]
        simp [c]

theorem due_iff (n dnow : Nat) (t : Nat) (hn : n < USIZE) (hd : dnow ≤ DeltaMax)
    (ht : t < USIZE) (hk : tsub t n ≤ DeltaMax) :
    ((!TicksIsLess (tadd n dnow) t) = true) ↔ tsub t n ≤ dnow := by
  have hdU : dnow < USIZE := by
    have := DeltaMax_eq; have := USIZE_eq; omega
  have hkey : tsub (tadd n dnow) n = dnow := tsub_tadd_self n dnow hn hdU
  have hiff := ticksIsLess_iff_key n (tadd n dnow) t hn (tadd_lt n dnow)
    (by rw [hkey]; exact hd) ht hk
  rw [hkey] at hiff
  cases hc : TicksIsLess (tadd n dnow) t with
  | true =>
    have hlt := hiff.mp hc
    simp only [hc, Bool.not_true, Bool.false_eq_true, false_iff]
    omega
  | false =>
    have hge : ¬ dnow < tsub t n := fun hlt => by
      rw [hiff.mpr hlt] at hc
      exact Bool.noConfusion hc
    simp only [hc, Bool.not_false, true_iff]
    omega

theorem takeWhile_eq_filter_of_sorted (n dnow : Nat) (hn : n < USIZE)
    (hd : dnow ≤ DeltaMax) :
    ∀ (q : List ActionEntry),
    (∀ e ∈ q, e.time < USIZE ∧ tsub e.time n ≤ DeltaMax) →
    q.Pairwise (fun a b => tsub a.time n ≤ tsub b.time n) →
    q.takeWhile (fun e => !TicksIsLess (tadd n dnow) e.time)
      = q.filter (fun e => !TicksIsLess (tadd n dnow) e.time) := by
  intro q
  induction q with
  | nil => simp
  | cons x xs ih =>
    intro hw hs
    have hwx := hw x (List.mem_cons_self x xs)
    have hwxs : ∀ y ∈ xs, y.time < USIZE ∧ tsub y.time n ≤ DeltaMax :=
      fun y hy => hw y (List.mem_cons_of_mem x hy)
    rcases List.pairwise_cons.mp hs with ⟨hx_all, hxs⟩
    cases c : (!TicksIsLess (tadd n dnow) x.time) with
    | true =>
      simp only [List.takeWhile, List.filter, c]
      exact congrArg (x :: ·) (ih hwxs hxs)
    | false =>
      have hxk : ¬ tsub x.time n ≤ dnow := by
        intro hcontra
        rw [(due_iff n dnow x.time hn hd hwx.1 hwx.2).mpr hcontra] at c
        exact Bool.noConfusion c
      have hnil : xs.filter (fun e => !TicksIsLess (tadd n dnow) e.time) = [] := by
        refine List.filter_eq_nil_iff.mpr ?_
        intro y hy hcontra
        have hyk := (due_iff n dnow y.time hn hd (hwxs y hy).1 (hwxs y hy).2).mp hcontra
        have := hx_all y hy
        omega
      simp only [List.takeWhile, List.filter, c, hnil]

/-- C3: on a started scheduler, for any sequence of `ScheduleAfter`
insertions (deltas within the comparable half range, distinct nodes) and
any `now` within the half range, `ExecuteAll(now)` runs to completion
firing exactly the entries whose scheduled times are at or before `now`
under cyclic comparison (as a permutation statement), in non-decreasing
scheduled-time order, with equal-time entries fired FIFO in insertion
order; and in the concrete scenario (start at 1000; A at +50, B at +50, C
at +30, D at +100 in that order; `ExecuteAll(1120)`) the firing order is
C, A, B, D. -/
theorem c3_execute_all_order :
    (∀ (now0 dnow : Nat) (inserts : List (Nat × Nat)) (s : SchedulerState),
      s.queue = [] →
      s.knownAbsoluteTicks = now0 →
      now0 < USIZE →
      dnow ≤ DeltaMax →
      (∀ p ∈ inserts, p.2 ≤ DeltaMax) →
      inserts.Pairwise (fun p q => p.1 ≠ q.1) →
      (ExecuteAll ((foldSched s inserts).queue.length + 1) (foldSched s inserts)
          (tadd now0 dnow)).completed = true ∧
      List.Perm
        (ExecuteAll ((foldSched s inserts).queue.length + 1) (foldSched s inserts)
          (tadd now0 dnow)).fired
        ((inserts.filter (fun p => decide (p.2 ≤ dnow))).map
          (fun p => (p.1, tadd now0 p.2))) ∧
      List.Pairwise (fun k1 k2 => k1 ≤ k2)
        ((ExecuteAll ((foldSched s inserts).queue.length + 1) (foldSched s inserts)
          (tadd now0 dnow)).fired.map (fun f => tsub f.2 now0)) ∧
      (∀ δ, δ ≤ dnow →
        ((ExecuteAll ((foldSched s inserts).queue.length + 1) (foldSched s inserts)
            (tadd now0 dnow)).fired.filter
              (fun f => f.2 == tadd now0 δ)).map Prod.fst
          = (inserts.filter (fun p => p.2 == δ)).map Prod.fst)) ∧
    (ExecuteAll 5 (foldSched (SchedulerStart schedulerInit 1000)
        [(1, 50), (2, 50), (3, 30), (4, 100)]) 1120).fired
      = [(3, 1030), (1, 1050), (2, 1050), (4, 1100)] ∧
    (ExecuteAll 5 (foldSched (SchedulerStart schedulerInit 1000)
        [(1, 50), (2, 50), (3, 30), (4, 100)]) 1120).completed = true := by
  refine ⟨?_, by decide, by decide⟩
  intro now0 dnow inserts s hq0 hk0 hn hd hdl hids
  -- invariants of the queue built by the insertions
  have hfold := foldSched_spec now0 hn inserts [] s hk0
    (by rw [hq0]; intro e he; exact absurd he (List.not_mem_nil e))
    (by rw [hq0]; exact List.Pairwise.nil)
    (by rw [hq0]; exact List.Perm.refl [])
    (by intro δ _; rw [hq0]; rfl)
    hdl
    (by intro p _ p2 hp2; exact absurd hp2 (List.not_mem_nil p2))
    hids
  rw [List.nil_append] at hfold
  obtain ⟨hK, hW, hS, hP, hStab⟩ := hfold
  have hWin : ∀ e ∈ (foldSched s inserts).queue,
      e.time < USIZE ∧ tsub e.time now0 ≤ DeltaMax :=
    fun e he => ⟨(hW e he).1, (hW e he).2.1⟩
  have hPer0 : ∀ e ∈ (foldSched s inserts).queue, e.period = 0 :=
    fun e he => (hW e he).2.2
  -- the ExecuteAll entry point only touches statistics before the loop
  have hqAll : ∀ fuel,
      ExecuteAll fuel (foldSched s inserts) (tadd now0 dnow)
        = executeAllGo fuel
            ({ foldSched s inserts with
                statisticsDelayBetweenExecuteAll :=
                  monitorOnMeasurement
                    (foldSched s inserts).statisticsDelayBetweenExecuteAll
                    (tsub (tadd now0 dnow % USIZE)
                      (foldSched s inserts).previousExecuteAllKnownAbsoluteTicks)
                previousExecuteAllKnownAbsoluteTicks := tadd now0 dnow % USIZE })
            (tadd now0 dnow) := fun fuel => rfl
  have hmod : tadd now0 dnow % USIZE = tadd now0 dnow :=
    Nat.mod_eq_of_lt (tadd_lt now0 dnow)
  have hrun := executeAllGo_period0 (tadd now0 dnow) (foldSched s inserts).queue
    ({ foldSched s inserts with
        statisticsDelayBetweenExecuteAll :=
          monitorOnMeasurement
            (foldSched s inserts).statisticsDelayBetweenExecuteAll
            (tsub (tadd now0 dnow % USIZE)
              (foldSched s inserts).previousExecuteAllKnownAbsoluteTicks)
        previousExecuteAllKnownAbsoluteTicks := tadd now0 dnow % USIZE })
    rfl hPer0
  rw [hmod] at hrun
  obtain ⟨hComp, hFired, _⟩ := hrun
  have hTW : ((foldSched s inserts).queue.takeWhile
        (fun e => !TicksIsLess (tadd now0 dnow) e.time))
      = (foldSched s inserts).queue.filter
          (fun e => !TicksIsLess (tadd now0 dnow) e.time) :=
    takeWhile_eq_filter_of_sorted now0 dnow hn hd (foldSched s inserts).queue hWin hS
  rw [hTW] at hFired
  rw [hqAll, hmod]
  refine ⟨hComp, ?_, ?_, ?_⟩
  -- fired is a permutation of the due insertions, in their entry form
  · rw [hFired]
    have h1 : List.Perm
        ((foldSched s inserts).queue.filter
          (fun e => !TicksIsLess (tadd now0 dnow) e.time))
        (((inserts.map (mkEntry now0)).filter
          (fun e => !TicksIsLess (tadd now0 dnow) e.time))) :=
      hP.filter _
    have h2 : ((inserts.map (mkEntry now0)).filter
          (fun e => !TicksIsLess (tadd now0 dnow) e.time))
        = (inserts.filter
            ((fun e => !TicksIsLess (tadd now0 dnow) e.time) ∘ mkEntry now0)).map
            (mkEntry now0) :=
      List.filter_map (mkEntry now0) inserts
    have h3 : (inserts.filter
          ((fun e => !TicksIsLess (tadd now0 dnow) e.time) ∘ mkEntry now0))
        = inserts.filter (fun p => decide (p.2 ≤ dnow)) := by
      refine List.filter_congr ?_
      intro p hp
      have hpd : p.2 ≤ DeltaMax := hdl p hp
      have hpU : p.2 < USIZE := by
        have := DeltaMax_eq; have := USIZE_eq; omega
      have hkey : tsub (mkEntry now0 p).time now0 = p.2 := by
        rw [mkEntry]
        exact tsub_tadd_self now0 p.2 hn hpU
      have hiff := due_iff now0 dnow (mkEntry now0 p).time hn hd
        (tadd_lt now0 p.2) (by rw [hkey]; exact hpd)
      rw [hkey] at hiff
      by_cases hc : p.2 ≤ dnow
      · have hdec : decide (p.2 ≤ dnow) = true := by simp [hc]
        simp only [Function.comp_apply, hiff.mpr hc, hdec]
      · have hlhs : ((!TicksIsLess (tadd now0 dnow) (mkEntry now0 p).time)) = false := by
          cases hb : (!TicksIsLess (tadd now0 dnow) (mkEntry now0 p).time) with
          | true => exact absurd (hiff.mp hb) hc
          | false => rfl
        have hdec : decide (p.2 ≤ dnow) = false := by simp [hc]
        simp only [Function.comp_apply, hlhs, hdec]
    rw [h2, h3] at h1
    have h4 := h1.map (fun e : ActionEntry => (e.id, e.time))
    refine h4.trans ?_
    rw [List.map_map]
    exact List.Perm.refl _
  -- fired times are non-decreasing relative to the start tick
  · rw [hFired]
    rw [List.map_map]
    refine (List.pairwise_map).mpr ?_
    exact hS.sublist (List.filter_sublist _)
  -- equal-time ties keep insertion order
  · intro δ hδd
    have hδD : δ ≤ DeltaMax := Nat.le_trans hδd hd
    have hδU : δ < USIZE := by
      have := DeltaMax_eq; have := USIZE_eq; omega
    rw [hFired]
    rw [List.filter_map]
    have h5 : ((foldSched s inserts).queue.filter
          (fun e => !TicksIsLess (tadd now0 dnow) e.time)).filter
          ((fun f : Nat × Nat => f.2 == tadd now0 δ) ∘ (fun e => (e.id, e.time)))
        = (foldSched s inserts).queue.filter
            (fun e => (e.time == tadd now0 δ) &&
              (!TicksIsLess (tadd now0 dnow) e.time)) := by
      exact List.filter_filter _ _
    have h6 : (foldSched s inserts).queue.filter
          (fun e => (e.time == tadd now0 δ) &&
            (!TicksIsLess (tadd now0 dnow) e.time))
        = (foldSched s inserts).queue.filter (fun e => e.time == tadd now0 δ) := by
      refine List.filter_congr ?_
      intro e he
      cases hte : (e.time == tadd now0 δ) with
      | false => rfl
      | true =>
        have heq : e.time = tadd now0 δ := by simpa using hte
        have hkey : tsub e.time now0 = δ := by
          rw [heq]
          exact tsub_tadd_self now0 δ hn hδU
        have hdue : (!TicksIsLess (tadd now0 dnow) e.time) = true := by
          refine (due_iff now0 dnow e.time hn hd (hWin e he).1 (hWin e he).2).mpr ?_
          rw [hkey]
          exact hδd
        rw [hdue]
        rfl
    rw [h5, h6]
    have h7 := hStab δ hδD
    rw [← h7]
    rw [List.map_map]
    rfl

/-- Witness for C3 at the concrete scenario input (start tick 1000;
insertions A +50, B +50, C +30, D +100; `ExecuteAll` 120 ticks later). -/
theorem c3_execute_all_order_witness :
    (ExecuteAll ((foldSched (SchedulerStart schedulerInit 1000)
        [(1, 50), (2, 50), (3, 30), (4, 100)]).queue.length + 1)
      (foldSched (SchedulerStart schedulerInit 1000)
        [(1, 50), (2, 50), (3, 30), (4, 100)])
      (tadd 1000 120)).completed = true ∧
    List.Perm
      (ExecuteAll ((foldSched (SchedulerStart schedulerInit 1000)
          [(1, 50), (2, 50), (3, 30), (4, 100)]).queue.length + 1)
        (foldSched (SchedulerStart schedulerInit 1000)
          [(1, 50), (2, 50), (3, 30), (4, 100)])
        (tadd 1000 120)).fired
      ((([(1, 50), (2, 50), (3, 30), (4, 100)] : List (Nat × Nat)).filter
          (fun p => decide (p.2 ≤ 120))).map (fun p => (p.1, tadd 1000 p.2))) := by
  have h := c3_execute_all_order.1 1000 120 [(1, 50), (2, 50), (3, 30), (4, 100)]
    (SchedulerStart schedulerInit 1000) rfl (by decide) (by decide) (by decide)
    (by decide) (by decide)
  exact ⟨h.1, h.2.1⟩

/-! ## Theorems about the task recursion guard (claim C5) -/

/-- C5: while a task is publishing a value from a yield (state
`ProtectFromRecursion`), a nested resume issued by the then-handler does
not execute the body (`CppTask_HandleRecursion_CanExecuteHere` returns
`callerShallContinueExecution = false`, so `Internal_ResumeTask` returns
the Thenable immediately), it only sets `ResumedByImmediateCallback`; the
suspended outer frame then detects the marker and continues the body
itself (the yield reports `staysSuspended = false` and restores `Busy`).
Without the nested resume the same yield truly suspends. -/
theorem c5_nested_resume_not_reentrant :
    taskYieldPublish true .Busy =
      some (.Busy, .ResumedByImmediateCallback, true, false) ∧
    CppTask_HandleRecursion_CanExecuteHere .ProtectFromRecursion =
      some (.ResumedByImmediateCallback, false) ∧
    taskYieldPublish false .Busy =
      some (.ReadyToResume, .ProtectFromRecursion, false, false) :=
  ⟨rfl, rfl, rfl⟩

/-! ## Theorem about the trampoline pool (claim C6) -/

/-- C6 (code behaviour at the failing input): with `reservedCount = 2`,
the first `CallbackFrom` stores its closure (10) in node 2 but returns
the trampoline that reads node 1; invoking that pointer after a second
`CallbackFrom` (closure 20) dispatches into node 1 and runs closure 20,
not closure 10 — and invoking it with only the first allocation in place
reads a node that holds no closure at all. -/
theorem c6_trampoline_dispatches_wrong_entry :
    nodeTrampolineTarget 2 = 1 ∧
    (CallbackFromAllocate (callbackPoolInit 2) 10) =
      some (1, ⟨[1], [(2, 10)]⟩) ∧
    ((CallbackFromAllocate (callbackPoolInit 2) 10).bind (fun r1 =>
      (CallbackFromAllocate r1.2 20).bind (fun r2 =>
        (invokeSingleShot r2.2 r1.1).map Prod.fst))) = some 20 ∧
    ((CallbackFromAllocate (callbackPoolInit 2) 10).bind (fun r1 =>
      invokeSingleShot r1.2 r1.1)) = none := by
  decide

/-! ## Theorem about ActionNode cancellation (claim C7) -/

/-- C7 (code behaviour at the failing input): a node subscribed to a
multicast with `ListenSubscribe` is untouched by `Cancel()` — the whole
body of `Cancel` is guarded by `scheduledWith != nullptr`, which
`listenTo` has cleared — so after `Cancel()` the node is still listening
and the next multicast fire still invokes its handler. -/
theorem c7_cancel_ignores_listening_node :
    ActionNode_Cancel
        (ActionNode_listenTo ⟨[(7, ⟨false, .idle⟩)], [], [], [], false⟩ 7 false) 7
      = ActionNode_listenTo ⟨[(7, ⟨false, .idle⟩)], [], [], [], false⟩ 7 false ∧
    (MulticastToActions_fire (ActionNode_Cancel
        (ActionNode_listenTo ⟨[(7, ⟨false, .idle⟩)], [], [], [], false⟩ 7 false)
        7)).2 = [7] ∧
    ActionNode_IsListening (ActionNode_Cancel
        (ActionNode_listenTo ⟨[(7, ⟨false, .idle⟩)], [], [], [], false⟩ 7 false)
        7) 7 = true := by
  decide

/-! ## Theorem about the scheduler-driven debouncer (claim C9) -/

/-- C9 (code behaviour at the failing input): `DebounceAction::OnFalse`
stores its callback into the `onTrue` slot and leaves `onFalse` at the
default; and a debouncer with `checkInterval = 10`,
`successCountExpected = 2` scheduled at tick 0 over a raw source that is
constantly `true` samples exactly once across `ExecuteAll` calls at
ticks 10, 20 and 30 — `Schedule` arms the action with period 0, so it is
never re-armed — hence the stable value never toggles and no callback
fires. -/
theorem c9_debounce_samples_once :
    (∀ (d : DebounceState) (cb : Nat),
      (DebounceAction_OnFalse d cb).onFalse = d.onFalse ∧
      (DebounceAction_OnFalse d cb).onTrue = cb) ∧
    (debounceExecuteAllSeq 3
        (DebounceBase_Schedule (SchedulerStart schedulerInit 0)
          ⟨false, 10, 2, 0, 1, 2⟩ 99)
        ⟨false, 10, 2, 0, 1, 2⟩
        [(10, true), (20, true), (30, true)]).samples = 1 ∧
    (debounceExecuteAllSeq 3
        (DebounceBase_Schedule (SchedulerStart schedulerInit 0)
          ⟨false, 10, 2, 0, 1, 2⟩ 99)
        ⟨false, 10, 2, 0, 1, 2⟩
        [(10, true), (20, true), (30, true)]).invoked = [] ∧
    (debounceExecuteAllSeq 3
        (DebounceBase_Schedule (SchedulerStart schedulerInit 0)
          ⟨false, 10, 2, 0, 1, 2⟩ 99)
        ⟨false, 10, 2, 0, 1, 2⟩
        [(10, true), (20, true), (30, true)]).deb.currentDebouncedVal = false ∧
    (debounceExecuteAllSeq 3
        (DebounceBase_Schedule (SchedulerStart schedulerInit 0)
          ⟨false, 10, 2, 0, 1, 2⟩ 99)
        ⟨false, 10, 2, 0, 1, 2⟩
        [(10, true), (20, true), (30, true)]).completed = true := by
  refine ⟨fun d cb => ⟨rfl, rfl⟩, by decide, by decide, by decide, by decide⟩

end InstantRTOS
